import Mathlib

/-!
Verification development for the caption-model core of the `retr`
repository (`models/caption.py`): the three model variants
(`Caption`, `CaptionLoc`, `CaptionGlobalLoc`), the output MLP head and
the `build_model` dispatcher, embedded shallowly over lists of
rationals.  The backbone, the transformer and the helpers from
`models/utils.py` are external to the embedded core and are modelled
from the specification where needed.
-/

namespace Retr

/-- Rectified linear unit on a rational scalar. -/
def reluQ (x : ℚ) : ℚ := max x 0

/-- `relu` applied componentwise to a vector. -/
def reluVec (v : List ℚ) : List ℚ := v.map reluQ

/-- Dot product of two vectors (componentwise product, summed). -/
def dotQ (a b : List ℚ) : ℚ := (List.zipWith (· * ·) a b).sum

/-- `torch.nn.Linear`: an affine map given by a weight matrix (one row
per output feature) and a bias vector. -/
structure Linear where
  weight : List (List ℚ)
  bias : List ℚ

/-- Application of a linear layer: each output component is the dot
product of a weight row with the input plus the bias entry. -/
def Linear.apply (l : Linear) (x : List ℚ) : List ℚ :=
  List.zipWith (fun r b => dotQ r x + b) l.weight l.bias

/-- The number of output features actually produced by a linear layer. -/
def Linear.outDim (l : Linear) : ℕ := min l.weight.length l.bias.length

/-- `torch.nn.Conv2d` with kernel size 1: a per-pixel linear map over
the channel dimension, given by a weight matrix (one row per output
channel) and a bias vector. -/
structure Conv1x1 where
  weight : List (List ℚ)
  bias : List ℚ

/-- Scale every entry of a 2-dimensional grid. -/
def scaleM (a : ℚ) (m : List (List ℚ)) : List (List ℚ) :=
  m.map fun r => r.map (a * ·)

/-- Pointwise sum of two 2-dimensional grids. -/
def addM (x y : List (List ℚ)) : List (List ℚ) :=
  List.zipWith (List.zipWith (· + ·)) x y

/-- A grid of the same shape as `m` holding the constant `c`. -/
def constLikeM (c : ℚ) (m : List (List ℚ)) : List (List ℚ) :=
  m.map fun r => r.map fun _ => c

/-- One output channel of a 1x1 convolution: the bias plus the
weighted sum of the input channels. -/
def chanCombine (ws : List ℚ) (b : ℚ) (x : List (List (List ℚ))) : List (List ℚ) :=
  (List.zipWith scaleM ws x).foldl addM (constLikeM b (x.headD []))

/-- Apply a 1x1 convolution to one sample of shape `[C, h, w]`,
producing a sample of shape `[out_channels, h, w]`. -/
def Conv1x1.apply (c : Conv1x1) (x : List (List (List ℚ))) : List (List (List ℚ)) :=
  List.zipWith (fun ws b => chanCombine ws b x) c.weight c.bias

/-- `NestedTensor` (from the external `models/utils.py`): a padded image
batch, a dense tensor `[B, C, H, W]` together with a boolean padding
mask `[B, H, W]` where `true` marks padding. -/
structure NestedTensor where
  tensors : List (List (List (List ℚ)))
  mask : List (List (List Bool))

/-- The decomposed output of the backbone for one batch: a feature
grid `[B, C, h, w]` and a downsampled mask `[B, h, w]`. -/
structure BackboneOut where
  features : List (List (List (List ℚ)))
  mask : List (List (List Bool))

/-- Modelled from the spec: the convolutional backbone
(`models/backbone.py` is not part of the embedded core).  It is an
opaque feature extractor `extract(padded_image_batch) ->
(features: [B,C,h,w], mask: [B,h,w])` exposing its channel count. -/
structure Backbone where
  num_channels : ℕ
  extract : NestedTensor → BackboneOut

/-- The bundle of arguments the caption model passes to the
transformer: a target stream, an optional context stream, and the
target token sequence with its mask. -/
structure TransformerInput where
  src_t : List (List (List ℚ))
  mask_t : List (List Bool)
  src_c : Option (List (List (List ℚ)))
  mask_c : Option (List (List Bool))
  tgt : List (List ℕ)
  tgt_mask : List (List Bool)

/-- Modelled from the spec: the concat transformer
(`models/ConcatTransformer.py` is not part of the embedded core).  It
consumes the assembled streams and returns decoder hidden states of
shape `[T, B, H]` together with attention weights. -/
structure ConcatTransformer where
  apply : TransformerInput → List (List (List ℚ)) × List (List (List ℚ))

/-- Dimension pairs of the MLP layers, as built by `MLP.__init__`:
`zip([input_dim] + h, h + [output_dim])` with
`h = [hidden_dim] * (num_layers - 1)`. -/
def mlpDims (input_dim hidden_dim output_dim num_layers : ℕ) : List (ℕ × ℕ) :=
  List.zip (input_dim :: List.replicate (num_layers - 1) hidden_dim)
    (List.replicate (num_layers - 1) hidden_dim ++ [output_dim])

/-- The output MLP head: a list of linear layers together with the
declared layer count. -/
structure MLP where
  num_layers : ℕ
  layers : List Linear

/-- Build an `MLP` as the constructor does, instantiating one linear
layer per dimension pair through the given layer factory. -/
def MLP.build (mk : ℕ → ℕ → Linear) (input_dim hidden_dim output_dim num_layers : ℕ) : MLP :=
  { num_layers := num_layers,
    layers := (mlpDims input_dim hidden_dim output_dim num_layers).map fun p => mk p.1 p.2 }

/-- The loop body of `MLP.forward`: apply each layer in order, with a
rectified-linear nonlinearity after every layer whose index is below
`num_layers - 1`. -/
def MLP.forwardAux (n : ℕ) : List Linear → ℕ → List ℚ → List ℚ
  | [], _, x => x
  | l :: ls, i, x =>
      MLP.forwardAux n ls (i + 1) (if i < n - 1 then reluVec (l.apply x) else l.apply x)

/-- `MLP.forward` on a single feature vector. -/
def MLP.forward (m : MLP) (x : List ℚ) : List ℚ :=
  MLP.forwardAux m.num_layers m.layers 0 x

/-- The MLP applied independently at every batch element and time
step of a `[B, T, H]` tensor. -/
def MLP.apply3 (m : MLP) (x : List (List (List ℚ))) : List (List (List ℚ)) :=
  x.map fun s => s.map m.forward

/-- `hs.permute(1, 0, 2)`: swap the first two axes of a `[T, B, H]`
tensor, yielding `[B, T, H]`. -/
def permute102 (x : List (List (List ℚ)))  : List (List (List ℚ)) :=
  (List.range (x.headD []).length).map fun b => x.map fun t => t.getD b []

/-- `loc_src.permute(0, 2, 1)` on one sample: transpose an `[N, H]`
grid into an `[H, N]` grid; `cols` is the static size `H` carried by
the tensor metadata. -/
def permute021 (cols : ℕ) (x : List (List ℚ)) : List (List ℚ) :=
  (List.range cols).map fun j => x.map fun row => row.getD j 0

/-- Modelled from the spec: the per-sample step of
`ensure_unmasked_values` — if every position of one sample's `[h, w]`
boolean mask is masked (`true`), force the first position unmasked. -/
def ensureSample (m : List (List Bool)) : List (List Bool) :=
  if m.all fun r => r.all (· = true) then
    match m with
    | [] => []
    | r :: rs => r.set 0 false :: rs
  else m

/-- Modelled from the spec: `ensure_unmasked_values` from the missing
`models/utils.py` — for each sample of a `[B, h, w]` boolean mask, if
every position is masked (`true`), force the first position unmasked
so context attention always has at least one valid position. -/
def ensure_unmasked_values (mask : List (List (List Bool))) : List (List (List Bool)) :=
  mask.map ensureSample

/-- A factory for freshly initialised neural-network sub-modules, as
`nn.Conv2d(in, out, 1)` and `nn.Linear(in, out)` produce in the class
constructors (the learned parameter values are arbitrary). -/
structure ModuleInit where
  mkConv : ℕ → ℕ → Conv1x1
  mkLinear : ℕ → ℕ → Linear

/-- The `Caption` variant (target image only). -/
structure Caption where
  backbone : Backbone
  positional_encoding : Option (List ℚ)
  input_proj : Conv1x1
  transformer : ConcatTransformer
  mlp : MLP

/-- `Caption.__init__`: store the backbone and transformer, build the
1x1 input projection from the backbone channel count to `hidden_dim`,
and the 3-layer MLP head `hidden_dim -> 512 -> 512 -> vocab_size`. -/
def Caption.init (ini : ModuleInit) (backbone : Backbone) (transformer : ConcatTransformer)
    (positional_encoding : Option (List ℚ)) (hidden_dim vocab_size : ℕ) : Caption :=
  { backbone := backbone,
    positional_encoding := positional_encoding,
    input_proj := ini.mkConv backbone.num_channels hidden_dim,
    transformer := transformer,
    mlp := MLP.build ini.mkLinear hidden_dim 512 vocab_size 3 }

/-- The `CaptionLoc` variant (target image plus a 7-dimensional
location vector per sample). -/
structure CaptionLoc where
  backbone : Backbone
  positional_encoding : Option (List ℚ)
  input_proj : Conv1x1
  loc_proj : Linear
  transformer : ConcatTransformer
  mlp : MLP

/-- `CaptionLoc.__init__`: as `Caption.init` plus the dedicated
location projection `nn.Linear(7, hidden_dim)`. -/
def CaptionLoc.init (ini : ModuleInit) (backbone : Backbone) (transformer : ConcatTransformer)
    (positional_encoding : Option (List ℚ)) (hidden_dim vocab_size : ℕ) : CaptionLoc :=
  { backbone := backbone,
    positional_encoding := positional_encoding,
    input_proj := ini.mkConv backbone.num_channels hidden_dim,
    loc_proj := ini.mkLinear 7 hidden_dim,
    transformer := transformer,
    mlp := MLP.build ini.mkLinear hidden_dim 512 vocab_size 3 }

/-- The `CaptionGlobalLoc` variant (target image, global image and a
location vector of arbitrary width per sample). -/
structure CaptionGlobalLoc where
  backbone : Backbone
  positional_encoding : Option (List ℚ)
  input_proj : Conv1x1
  loc_proj : Linear
  transformer : ConcatTransformer
  mlp : MLP

/-- `CaptionGlobalLoc.__init__`: as `Caption.init` plus the scalar
location projection `nn.Linear(1, hidden_dim)`. -/
def CaptionGlobalLoc.init (ini : ModuleInit) (backbone : Backbone)
    (transformer : ConcatTransformer) (positional_encoding : Option (List ℚ))
    (hidden_dim vocab_size : ℕ) : CaptionGlobalLoc :=
  { backbone := backbone,
    positional_encoding := positional_encoding,
    input_proj := ini.mkConv backbone.num_channels hidden_dim,
    loc_proj := ini.mkLinear 1 hidden_dim,
    transformer := transformer,
    mlp := MLP.build ini.mkLinear hidden_dim 512 vocab_size 3 }

/-- The stream-assembly part of `Caption.forward`: extract backbone
features, project, flatten the spatial axes, and pass no context
stream. -/
def Caption.assemble (m : Caption) (samples : NestedTensor) (target_exp : List (List ℕ))
    (target_exp_mask : List (List Bool)) : TransformerInput :=
  let features := m.backbone.extract samples
  let src := features.features.map m.input_proj.apply
  let mask := features.mask
  let src := src.map fun s => s.map List.flatten
  let mask := mask.map List.flatten
  { src_t := src, mask_t := mask, src_c := none, mask_c := none,
    tgt := target_exp, tgt_mask := target_exp_mask }

/-- `Caption.forward`: assemble the streams, run the transformer,
permute the decoder states to `[B, T, H]` and apply the MLP head;
return the attention weights only when requested. -/
def Caption.forward (m : Caption) (samples : NestedTensor) (target_exp : List (List ℕ))
    (target_exp_mask : List (List Bool)) (return_attention : Bool) :
    List (List (List ℚ)) × Option (List (List (List ℚ))) :=
  let p := m.transformer.apply (Caption.assemble m samples target_exp target_exp_mask)
  let out := m.mlp.apply3 (permute102 p.1)
  if return_attention then (out, some p.2) else (out, none)

/-- The stream-assembly part of `CaptionLoc.forward`: as for
`Caption`, then project the location vector through `loc_proj`,
unsqueeze it into a single length-1 position with an all-`false`
mask, and concatenate it after the target positions. -/
def CaptionLoc.assemble (m : CaptionLoc) (t_samples : NestedTensor)
    (loc_feats : List (List ℚ)) (target_exp : List (List ℕ))
    (target_exp_mask : List (List Bool)) : TransformerInput :=
  let t_features := m.backbone.extract t_samples
  let t_src := t_features.features.map m.input_proj.apply
  let t_mask := t_features.mask
  let t_src := t_src.map fun s => s.map List.flatten
  let t_mask := t_mask.map List.flatten
  let loc_src := loc_feats.map fun v => (m.loc_proj.apply v).map fun q => [q]
  let loc_masks := List.replicate loc_feats.length [false]
  let src := List.zipWith (fun ts ls => List.zipWith (· ++ ·) ts ls) t_src loc_src
  let mask := List.zipWith (· ++ ·) t_mask loc_masks
  { src_t := src, mask_t := mask, src_c := none, mask_c := none,
    tgt := target_exp, tgt_mask := target_exp_mask }

/-- `CaptionLoc.forward`. -/
def CaptionLoc.forward (m : CaptionLoc) (t_samples : NestedTensor)
    (loc_feats : List (List ℚ)) (target_exp : List (List ℕ))
    (target_exp_mask : List (List Bool)) (return_attention : Bool) :
    List (List (List ℚ)) × Option (List (List (List ℚ))) :=
  let p := m.transformer.apply (CaptionLoc.assemble m t_samples loc_feats target_exp target_exp_mask)
  let out := m.mlp.apply3 (permute102 p.1)
  if return_attention then (out, some p.2) else (out, none)

/-- The stream-assembly part of `CaptionGlobalLoc.forward`: build the
target stream as the flattened projected target features with every
location scalar independently projected (`unsqueeze(2)`, scalar-wise
`loc_proj`, `permute(0,2,1)`) appended under an all-`false` mask;
build the context stream from the global batch through the same
backbone and input projection, with `ensure_unmasked_values` applied
to the global mask before flattening. -/
def CaptionGlobalLoc.assemble (m : CaptionGlobalLoc) (t_samples g_samples : NestedTensor)
    (loc_feats : List (List ℚ)) (target_exp : List (List ℕ))
    (target_exp_mask : List (List Bool)) : TransformerInput :=
  let t_features := m.backbone.extract t_samples
  let t_src := t_features.features.map m.input_proj.apply
  let t_mask := t_features.mask
  let t_src := t_src.map fun s => s.map List.flatten
  let t_mask := t_mask.map List.flatten
  let loc_mid := loc_feats.map fun v => v.map fun q => m.loc_proj.apply [q]
  let loc_src := loc_mid.map (permute021 m.loc_proj.outDim)
  let loc_masks := List.replicate loc_src.length
    (List.replicate ((loc_src.headD []).headD []).length false)
  let target_src := List.zipWith (fun ts ls => List.zipWith (· ++ ·) ts ls) t_src loc_src
  let target_mask := List.zipWith (· ++ ·) t_mask loc_masks
  let g_features := m.backbone.extract g_samples
  let g_src := g_features.features.map m.input_proj.apply
  let g_mask := ensure_unmasked_values g_features.mask
  let g_src := g_src.map fun s => s.map List.flatten
  let g_mask := g_mask.map List.flatten
  { src_t := target_src, mask_t := target_mask, src_c := some g_src, mask_c := some g_mask,
    tgt := target_exp, tgt_mask := target_exp_mask }

/-- `CaptionGlobalLoc.forward`. -/
def CaptionGlobalLoc.forward (m : CaptionGlobalLoc) (t_samples g_samples : NestedTensor)
    (loc_feats : List (List ℚ)) (target_exp : List (List ℕ))
    (target_exp_mask : List (List Bool)) (return_attention : Bool) :
    List (List (List ℚ)) × Option (List (List (List ℚ))) :=
  let p := m.transformer.apply
    (CaptionGlobalLoc.assemble m t_samples g_samples loc_feats target_exp target_exp_mask)
  let out := m.mlp.apply3 (permute102 p.1)
  if return_attention then (out, some p.2) else (out, none)

/-- `Caption.forward` with the module state threaded explicitly: the
method body binds only local variables and assigns no attribute of
`self`, so the returned module is the one it was called on. -/
def Caption.forwardM (m : Caption) (samples : NestedTensor) (target_exp : List (List ℕ))
    (target_exp_mask : List (List Bool)) (return_attention : Bool) :
    (List (List (List ℚ)) × Option (List (List (List ℚ)))) × Caption :=
  (Caption.forward m samples target_exp target_exp_mask return_attention, m)

/-- `CaptionLoc.forward` with the module state threaded explicitly. -/
def CaptionLoc.forwardM (m : CaptionLoc) (t_samples : NestedTensor)
    (loc_feats : List (List ℚ)) (target_exp : List (List ℕ))
    (target_exp_mask : List (List Bool)) (return_attention : Bool) :
    (List (List (List ℚ)) × Option (List (List (List ℚ)))) × CaptionLoc :=
  (CaptionLoc.forward m t_samples loc_feats target_exp target_exp_mask return_attention, m)

/-- `CaptionGlobalLoc.forward` with the module state threaded
explicitly. -/
def CaptionGlobalLoc.forwardM (m : CaptionGlobalLoc) (t_samples g_samples : NestedTensor)
    (loc_feats : List (List ℚ)) (target_exp : List (List ℕ))
    (target_exp_mask : List (List Bool)) (return_attention : Bool) :
    (List (List (List ℚ)) × Option (List (List (List ℚ)))) × CaptionGlobalLoc :=
  (CaptionGlobalLoc.forward m t_samples g_samples loc_feats target_exp target_exp_mask
    return_attention, m)

/-- The error raised by `build_model` for the unsupported flag
combination (`raise NotImplementedError()`). -/
inductive BuildError where
  | notImplemented
deriving DecidableEq

/-- The loss criterion returned by `build_model`
(`torch.nn.CrossEntropyLoss()`). -/
inductive Criterion where
  | crossEntropyLoss
deriving DecidableEq

/-- The model returned by `build_model`: one of the three variant
classes. -/
inductive Model where
  | target (m : Caption)
  | targetLoc (m : CaptionLoc)
  | targetGlobalLoc (m : CaptionGlobalLoc)

/-- The closed set of variant tags. -/
inductive ModelVariant where
  | TargetOnly
  | TargetPlusLocation
  | TargetPlusGlobalPlusLocation
deriving DecidableEq

/-- The variant tag of a built model. -/
def Model.variant : Model → ModelVariant
  | .target _ => .TargetOnly
  | .targetLoc _ => .TargetPlusLocation
  | .targetGlobalLoc _ => .TargetPlusGlobalPlusLocation

/-- The positional-encoding field of a built model, whichever variant
it is. -/
def Model.posEnc : Model → Option (List ℚ)
  | .target m => m.positional_encoding
  | .targetLoc m => m.positional_encoding
  | .targetGlobalLoc m => m.positional_encoding

/-- The configuration fields `build_model` reads. -/
structure Config where
  use_global_features : Bool
  use_location_features : Bool
  hidden_dim : ℕ
  vocab_size : ℕ

/-- Spec-side restatement: the model variant the two boolean flags
determine, `none` for the unsupported combination (global without
location). -/
def variantFor (use_global use_location : Bool) : Option ModelVariant :=
  match use_global, use_location with
  | false, false => some .TargetOnly
  | false, true => some .TargetPlusLocation
  | true, true => some .TargetPlusGlobalPlusLocation
  | true, false => none

/-- `build_model(config)`: build the backbone and the transformer,
pick the model class by the two boolean flags (raising
`NotImplementedError` on global-without-location), construct it with
`positional_encoding = None`, and return it with a cross-entropy
criterion.  The backbone and transformer factories
(`build_backbone`, `build_transformer`, both external to the embedded
core) are passed in as functions of the configuration. -/
def build_model (build_backbone : Config → Backbone)
    (build_transformer : Config → ConcatTransformer) (ini : ModuleInit) (config : Config) :
    Except BuildError (Model × Criterion) :=
  let backbone := build_backbone config
  let transformer := build_transformer config
  let use_global := config.use_global_features
  let use_location := config.use_location_features
  if !use_global && !use_location then
    .ok (.target (Caption.init ini backbone transformer none config.hidden_dim
      config.vocab_size), .crossEntropyLoss)
  else if !use_global && use_location then
    .ok (.targetLoc (CaptionLoc.init ini backbone transformer none config.hidden_dim
      config.vocab_size), .crossEntropyLoss)
  else if use_global && use_location then
    .ok (.targetGlobalLoc (CaptionGlobalLoc.init ini backbone transformer none
      config.hidden_dim config.vocab_size), .crossEntropyLoss)
  else
    .error .notImplemented

/-- Well-formedness of a backbone output: features and mask are
paired per sample, each sample has at least one feature channel, and
every channel grid has exactly the spatial row lengths of the sample's
mask grid (the two sides of `decompose` describe the same grid). -/
def BackboneOut.consistent (o : BackboneOut) : Prop :=
  List.Forall₂ (fun f mk => f ≠ [] ∧ ∀ ch ∈ f, ch.map List.length = mk.map List.length)
    o.features o.mask

/-- A three-dimensional tensor has shape `[a, b, c]`. -/
def tensor3Shape (x : List (List (List ℚ))) (a b c : ℕ) : Prop :=
  x.length = a ∧ ∀ m ∈ x, m.length = b ∧ ∀ r ∈ m, r.length = c

/-- Test fixture: a backbone that returns the batch unchanged as a
feature grid (one channel). -/
def bbT : Backbone :=
  { num_channels := 1, extract := fun nt => { features := nt.tensors, mask := nt.mask } }

/-- Test fixture: a transformer that returns fixed decoder states of
shape `[1, 1, 1]`. -/
def trT : ConcatTransformer := { apply := fun _ => ([[[0]]], [[[0]]]) }

/-- Test fixture: a module factory whose linear and convolution
weights are all ones and biases all zeros, at the requested sizes. -/
def iniT : ModuleInit where
  mkConv n k := ⟨List.replicate k (List.replicate n 1), List.replicate k 0⟩
  mkLinear n k := ⟨List.replicate k (List.replicate n 1), List.replicate k 0⟩

/-- Test fixture: a configuration selecting the `Caption` variant. -/
def cfgT : Config :=
  { use_global_features := false, use_location_features := false,
    hidden_dim := 1, vocab_size := 2 }

/-- Test fixture: a `Caption` model with `hidden_dim = 1`,
`vocab_size = 2`. -/
def mcT : Caption := Caption.init iniT bbT trT none 1 2

/-- Test fixture: a `CaptionLoc` model with `hidden_dim = 1`,
`vocab_size = 2`. -/
def mlT : CaptionLoc := CaptionLoc.init iniT bbT trT none 1 2

/-- Test fixture: a `CaptionGlobalLoc` model with `hidden_dim = 1`,
`vocab_size = 2`. -/
def mgT : CaptionGlobalLoc := CaptionGlobalLoc.init iniT bbT trT none 1 2

/-- Test fixture: a one-sample batch with a single unmasked pixel. -/
def ntT : NestedTensor := { tensors := [[[[1]]]], mask := [[[false]]] }

/-- Test fixture: a one-sample batch whose single pixel is padding. -/
def ntPadT : NestedTensor := { tensors := [[[[1]]]], mask := [[[true]]] }

/-- Test fixture: a one-sample batch of 7-dimensional location
vectors. -/
def locT : List (List ℚ) := [[1, 0, 0, 0, 0, 0, 0]]

/-- Test fixture: a one-sample batch of width-2 location vectors. -/
def loc2T : List (List ℚ) := [[2, 3]]

/-- Test fixture: a one-sample target token sequence. -/
def tgtT : List (List ℕ) := [[0]]

/-- Test fixture: a one-sample target token mask. -/
def tmT : List (List Bool) := [[false]]

theorem zipWith_replicate_right_eq {α β γ : Type _} (f : α → β → γ) (c : β) :
    ∀ xs : List α, List.zipWith f xs (List.replicate xs.length c) = xs.map fun x => f x c
  | [] => rfl
  | x :: xs => by
      simp only [List.length_cons, List.replicate_succ, List.zipWith_cons_cons, List.map_cons]
      rw [zipWith_replicate_right_eq f c xs]

theorem mem_zipWith {α β γ : Type _} {f : α → β → γ} :
    ∀ {as : List α} {bs : List β} {z : γ}, z ∈ List.zipWith f as bs →
      ∃ a ∈ as, ∃ b ∈ bs, z = f a b
  | [], _, _, h => by simp at h
  | _ :: _, [], _, h => by simp at h
  | a :: as, b :: bs, z, h => by
      rcases List.mem_cons.mp h with h | h
      · exact ⟨a, by simp, b, by simp, h⟩
      · obtain ⟨a', ha, b', hb, rfl⟩ := mem_zipWith h
        exact ⟨a', by simp [ha], b', by simp [hb], rfl⟩

theorem scaleM_shape (a : ℚ) (m : List (List ℚ)) :
    (scaleM a m).map List.length = m.map List.length := by
  simp [scaleM, List.map_map, Function.comp_def]

theorem constLikeM_shape (c : ℚ) (m : List (List ℚ)) :
    (constLikeM c m).map List.length = m.map List.length := by
  simp [constLikeM, List.map_map, Function.comp_def]

theorem addM_shape : ∀ x y : List (List ℚ), x.map List.length = y.map List.length →
    (addM x y).map List.length = x.map List.length
  | [], _, _ => by simp [addM]
  | _ :: _, [], h => by simp at h
  | x :: xs, y :: ys, h => by
      simp only [List.map_cons, List.cons.injEq] at h
      simp only [addM, List.zipWith_cons_cons, List.map_cons, List.cons.injEq]
      exact ⟨by simp [h.1], addM_shape xs ys h.2⟩

theorem foldl_addM_shape (s : List ℕ) :
    ∀ (l : List (List (List ℚ))) (init : List (List ℚ)),
      init.map List.length = s → (∀ z ∈ l, z.map List.length = s) →
      (l.foldl addM init).map List.length = s
  | [], _, h, _ => h
  | z :: l, init, h, hl => by
      have hz : z.map List.length = s := hl z (by simp)
      have hstep : (addM init z).map List.length = s :=
        (addM_shape init z (by rw [h, hz])).trans h
      exact foldl_addM_shape s l (addM init z) hstep (fun w hw => hl w (by simp [hw]))

theorem chanCombine_shape (ws : List ℚ) (b : ℚ) (x : List (List (List ℚ))) (s : List ℕ)
    (hne : x ≠ []) (hch : ∀ ch ∈ x, ch.map List.length = s) :
    (chanCombine ws b x).map List.length = s := by
  unfold chanCombine
  apply foldl_addM_shape
  · rcases x with _ | ⟨h0, xt⟩
    · exact absurd rfl hne
    · simpa [constLikeM_shape] using hch h0 (by simp)
  · intro z hz
    obtain ⟨a, _, ch, hch', rfl⟩ := mem_zipWith hz
    rw [scaleM_shape]
    exact hch ch hch'

theorem conv_apply_shape (c : Conv1x1) (x : List (List (List ℚ))) (s : List ℕ)
    (hne : x ≠ []) (hch : ∀ ch ∈ x, ch.map List.length = s) :
    ∀ ch' ∈ Conv1x1.apply c x, ch'.map List.length = s := by
  intro ch' h
  obtain ⟨ws, _, b, _, rfl⟩ := mem_zipWith h
  exact chanCombine_shape ws b x s hne hch

theorem flatten_length_eq_of_shape {α β : Type _} {a : List (List α)} {b : List (List β)}
    (h : a.map List.length = b.map List.length) : a.flatten.length = b.flatten.length := by
  rw [List.length_flatten, List.length_flatten, h]

theorem map_getD_range {α : Type _} (d : α) :
    ∀ l : List α, (List.range l.length).map (fun j => l.getD j d) = l
  | [] => rfl
  | x :: xs => by
      rw [List.length_cons, List.range_succ_eq_map, List.map_cons, List.map_map]
      simp only [Function.comp_def, List.getD_cons_zero, List.getD_cons_succ]
      rw [map_getD_range d xs]

/-- Claim C1: `build_model` fails with the unsupported-configuration error exactly when
the flags are (global = true, location = false), for any other configuration values and
factories; for every other flag combination it returns a model of the variant the flags
determine, never falling back to a different variant. -/
theorem build_model_dispatch (bb : Config → Backbone) (bt : Config → ConcatTransformer)
    (ini : ModuleInit) (cfg : Config) :
    ((build_model bb bt ini cfg).toOption.map fun p => p.1.variant)
        = variantFor cfg.use_global_features cfg.use_location_features
      ∧ (build_model bb bt ini cfg = .error .notImplemented
          ↔ cfg.use_global_features = true ∧ cfg.use_location_features = false) := by
  rcases cfg with ⟨g, l, hd, v⟩
  cases g <;> cases l <;>
    simp [build_model, variantFor, Model.variant, Except.toOption]

/-- Claim C8: for every variant, running `forward` twice in sequence with identical
inputs, threading the module state through the call, yields identical logits: the
forward pass leaves the module (and hence its parameters) unchanged. -/
theorem forward_no_hidden_state
    (mc : Caption) (s : NestedTensor) (te : List (List ℕ)) (tem : List (List Bool)) (ra : Bool)
    (ml : CaptionLoc) (sl : NestedTensor) (ll : List (List ℚ)) (tel : List (List ℕ))
    (teml : List (List Bool)) (ral : Bool)
    (mg : CaptionGlobalLoc) (st sg : NestedTensor) (lg : List (List ℚ)) (teg : List (List ℕ))
    (temg : List (List Bool)) (rag : Bool) :
    (Caption.forwardM (Caption.forwardM mc s te tem ra).2 s te tem ra).1
        = (Caption.forwardM mc s te tem ra).1
      ∧ (CaptionLoc.forwardM (CaptionLoc.forwardM ml sl ll tel teml ral).2 sl ll tel teml ral).1
        = (CaptionLoc.forwardM ml sl ll tel teml ral).1
      ∧ (CaptionGlobalLoc.forwardM (CaptionGlobalLoc.forwardM mg st sg lg teg temg rag).2
            st sg lg teg temg rag).1
        = (CaptionGlobalLoc.forwardM mg st sg lg teg temg rag).1 :=
  ⟨rfl, rfl, rfl⟩

/-- Claim C10: the `positional_encoding` constructor argument is stored but never read
by any forward pass — the logits of every variant are unchanged under replacing it by an
arbitrary value — and `build_model` always passes `None` for it. -/
theorem positional_encoding_unused (p : Option (List ℚ))
    (mc : Caption) (s : NestedTensor) (te : List (List ℕ)) (tem : List (List Bool)) (ra : Bool)
    (ml : CaptionLoc) (sl : NestedTensor) (ll : List (List ℚ)) (tel : List (List ℕ))
    (teml : List (List Bool)) (ral : Bool)
    (mg : CaptionGlobalLoc) (st sg : NestedTensor) (lg : List (List ℚ)) (teg : List (List ℕ))
    (temg : List (List Bool)) (rag : Bool)
    (bb : Config → Backbone) (bt : Config → ConcatTransformer) (ini : ModuleInit)
    (cfg : Config) (mdl : Model) (cr : Criterion) :
    Caption.forward { mc with positional_encoding := p } s te tem ra
        = Caption.forward mc s te tem ra
      ∧ CaptionLoc.forward { ml with positional_encoding := p } sl ll tel teml ral
        = CaptionLoc.forward ml sl ll tel teml ral
      ∧ CaptionGlobalLoc.forward { mg with positional_encoding := p } st sg lg teg temg rag
        = CaptionGlobalLoc.forward mg st sg lg teg temg rag
      ∧ (build_model bb bt ini cfg = .ok (mdl, cr) → mdl.posEnc = none) := by
  refine ⟨rfl, rfl, rfl, fun h => ?_⟩
  rcases cfg with ⟨g, l, hd, v⟩
  cases g <;> cases l <;> simp [build_model] at h <;> (subst h; rfl)

/-- Witness for the claim-C10 theorem at a concrete configuration. -/
theorem positional_encoding_unused_witness :
    build_model (fun _ => bbT) (fun _ => trT) iniT cfgT
        = .ok (.target (Caption.init iniT bbT trT none 1 2), .crossEntropyLoss)
      ∧ (Model.target (Caption.init iniT bbT trT none 1 2)).posEnc = none :=
  ⟨rfl, (positional_encoding_unused none mcT ntT tgtT tmT false mlT ntT locT tgtT tmT false
    mgT ntT ntT loc2T tgtT tmT false (fun _ => bbT) (fun _ => trT) iniT cfgT
    (Model.target (Caption.init iniT bbT trT none 1 2)) Criterion.crossEntropyLoss).2.2.2 rfl⟩

theorem forall₂_map_map {α β γ δ : Type _} {R : α → β → Prop} {S : γ → δ → Prop}
    (f : α → γ) (g : β → δ) (h : ∀ a b, R a b → S (f a) (g b)) :
    ∀ {as : List α} {bs : List β}, List.Forall₂ R as bs →
      List.Forall₂ S (as.map f) (bs.map g) := by
  intro as bs hab
  induction hab with
  | nil => exact .nil
  | cons hx _ ih => exact .cons (h _ _ hx) ih

theorem forall₂_zipWith_congr {α β γ δ ε ζ : Type _} {Q : α → γ → Prop} {R : β → δ → Prop}
    {P : ε → ζ → Prop} {f : α → β → ε} {g : γ → δ → ζ}
    (h : ∀ a b c d, Q a c → R b d → P (f a b) (g c d)) :
    ∀ {as : List α} {bs : List β} {cs : List γ} {ds : List δ},
      List.Forall₂ Q as cs → List.Forall₂ R bs ds →
      List.Forall₂ P (List.zipWith f as bs) (List.zipWith g cs ds) := by
  intro as bs cs ds hq hr
  induction hq generalizing bs ds with
  | nil => simp
  | cons hx _ ih =>
      cases hr with
      | nil => simp
      | cons hy hys => exact .cons (h _ _ _ _ hx hy) (ih hys)

theorem forall₂_replicate_right {α β : Type _} {R : α → β → Prop} (c : β) :
    ∀ (l : List α) (n : ℕ), l.length = n → (∀ a ∈ l, R a c) →
      List.Forall₂ R l (List.replicate n c)
  | [], _, rfl, _ => .nil
  | a :: l, _, rfl, h =>
      .cons (h a (by simp))
        (forall₂_replicate_right c l l.length rfl fun x hx => h x (by simp [hx]))

theorem image_stream_consistent (c : Conv1x1) (o : BackboneOut) (h : o.consistent) :
    List.Forall₂ (fun fs ms => ∀ ch ∈ fs, ch.length = ms.length)
      (o.features.map fun f => (c.apply f).map List.flatten)
      (o.mask.map List.flatten) := by
  refine forall₂_map_map _ _ ?_ h
  intro f mk hfm ch' hmem
  obtain ⟨hne, hch⟩ := hfm
  obtain ⟨ch0, hch0, rfl⟩ := List.mem_map.mp hmem
  exact flatten_length_eq_of_shape (conv_apply_shape c f _ hne hch ch0 hch0)

theorem mem_permute021_length (cols : ℕ) (x : List (List ℚ)) :
    ∀ lch ∈ permute021 cols x, lch.length = x.length := by
  intro lch h
  obtain ⟨j, _, rfl⟩ := List.mem_map.mp h
  simp

theorem permute021_head_length (k : ℕ) (x : List (List ℚ)) :
    ((permute021 (k + 1) x).headD []).length = x.length := by
  simp [permute021, List.range_succ_eq_map]

theorem loc_block_forall₂ (lp : Linear) (lg : List (List ℚ))
    (hrect : ∀ v ∈ lg, v.length = (lg.headD []).length) :
    List.Forall₂
      (fun ls lm =>
        (∀ lch ∈ ls,
          lch.length
            = (((lg.map fun v => permute021 lp.outDim
                  (v.map fun q => lp.apply [q])).headD []).headD []).length)
          ∧ lm.length
            = (((lg.map fun v => permute021 lp.outDim
                  (v.map fun q => lp.apply [q])).headD []).headD []).length)
      (lg.map fun v => permute021 lp.outDim (v.map fun q => lp.apply [q]))
      (List.replicate
        (lg.map fun v => permute021 lp.outDim (v.map fun q => lp.apply [q])).length
        (List.replicate
          (((lg.map fun v => permute021 lp.outDim
              (v.map fun q => lp.apply [q])).headD []).headD []).length false)) := by
  refine forall₂_replicate_right _ _ _ rfl ?_
  intro ls hls
  obtain ⟨v, hv, rfl⟩ := List.mem_map.mp hls
  refine ⟨?_, by simp⟩
  intro lch hmem
  cases hcols : lp.outDim with
  | zero => rw [hcols] at hmem; simp [permute021] at hmem
  | succ k =>
      rw [hcols] at hmem
      have h1 := mem_permute021_length (k + 1) (v.map fun q => lp.apply [q]) lch hmem
      rcases lg with _ | ⟨v0, rest⟩
      · simp at hv
      · have h2 : v.length = v0.length := by simpa using hrect v hv
        simp only [List.map_cons, List.headD_cons, hcols, permute021_head_length,
          List.length_map]
        rw [h1]
        simpa using h2

theorem ensureSample_shape (m : List (List Bool)) :
    (ensureSample m).map List.length = m.map List.length := by
  unfold ensureSample
  split
  · match m with
    | [] => rfl
    | r :: rs => simp
  · rfl

/-- Claim C5: in every variant, every stream the forward pass assembles for the
transformer satisfies the length-consistency invariant: each sample's mask length
(`mask.shape[1]`) equals the length of each of its feature channels
(`features.shape[2]`), for the target stream and for the context stream when one is
produced. -/
theorem stream_length_consistency
    (mc : Caption) (s : NestedTensor) (te : List (List ℕ)) (tem : List (List Bool))
    (ml : CaptionLoc) (sl : NestedTensor) (ll : List (List ℚ)) (tel : List (List ℕ))
    (teml : List (List Bool))
    (mg : CaptionGlobalLoc) (st sg : NestedTensor) (lg : List (List ℚ)) (teg : List (List ℕ))
    (temg : List (List Bool))
    (hc : (mc.backbone.extract s).consistent)
    (hl : (ml.backbone.extract sl).consistent)
    (hgt : (mg.backbone.extract st).consistent)
    (hgg : (mg.backbone.extract sg).consistent)
    (hrect : ∀ v ∈ lg, v.length = (lg.headD []).length) :
    List.Forall₂ (fun fs ms => ∀ ch ∈ fs, ch.length = ms.length)
        (Caption.assemble mc s te tem).src_t (Caption.assemble mc s te tem).mask_t
      ∧ List.Forall₂ (fun fs ms => ∀ ch ∈ fs, ch.length = ms.length)
        (CaptionLoc.assemble ml sl ll tel teml).src_t
        (CaptionLoc.assemble ml sl ll tel teml).mask_t
      ∧ List.Forall₂ (fun fs ms => ∀ ch ∈ fs, ch.length = ms.length)
        (CaptionGlobalLoc.assemble mg st sg lg teg temg).src_t
        (CaptionGlobalLoc.assemble mg st sg lg teg temg).mask_t
      ∧ ∀ sc mc', (CaptionGlobalLoc.assemble mg st sg lg teg temg).src_c = some sc →
          (CaptionGlobalLoc.assemble mg st sg lg teg temg).mask_c = some mc' →
          List.Forall₂ (fun fs ms => ∀ ch ∈ fs, ch.length = ms.length) sc mc' := by
  refine ⟨?_, ?_, ?_, ?_⟩
  · simp only [Caption.assemble, List.map_map, Function.comp_def]
    exact image_stream_consistent mc.input_proj _ hc
  · simp only [CaptionLoc.assemble, List.map_map, Function.comp_def]
    refine forall₂_zipWith_congr
      (R := fun ls lm => (∀ lch ∈ ls, lch.length = 1) ∧ lm.length = 1)
      ?_ (image_stream_consistent ml.input_proj _ hl)
      (forall₂_replicate_right _ _ ll.length (by simp) ?_)
    · intro ts ls tm lm hQ hR ch hch
      obtain ⟨tch, htch, lch, hlch, rfl⟩ := mem_zipWith hch
      obtain ⟨hls, hlm⟩ := hR
      rw [List.length_append, List.length_append, hQ tch htch, hls lch hlch, hlm]
    · intro ls hls
      obtain ⟨v, hv, rfl⟩ := List.mem_map.mp hls
      refine ⟨?_, by simp⟩
      intro lch hmem
      obtain ⟨q, _, rfl⟩ := List.mem_map.mp hmem
      rfl
  · simp only [CaptionGlobalLoc.assemble, List.map_map, Function.comp_def]
    refine forall₂_zipWith_congr ?_ (image_stream_consistent mg.input_proj _ hgt)
      (loc_block_forall₂ mg.loc_proj lg hrect)
    intro ts ls tm lm hQ hR ch hch
    obtain ⟨tch, htch, lch, hlch, rfl⟩ := mem_zipWith hch
    obtain ⟨hls, hlm⟩ := hR
    rw [List.length_append, List.length_append, hQ tch htch, hls lch hlch, hlm]
  · intro sc mc' hsc hmc
    simp only [CaptionGlobalLoc.assemble, Option.some.injEq] at hsc hmc
    subst hsc; subst hmc
    unfold ensure_unmasked_values
    simp only [List.map_map, Function.comp_def]
    refine forall₂_map_map _ _ ?_ hgg
    intro f mk hfm ch' hmem
    obtain ⟨hne, hch⟩ := hfm
    obtain ⟨ch0, hch0, rfl⟩ := List.mem_map.mp hmem
    have h2 : ch0.flatten.length = mk.flatten.length :=
      flatten_length_eq_of_shape (conv_apply_shape mg.input_proj f _ hne hch ch0 hch0)
    have h3 : (ensureSample mk).flatten.length = mk.flatten.length :=
      flatten_length_eq_of_shape (ensureSample_shape mk)
    omega

/-- Witness for the claim-C5 theorem at a concrete batch. -/
theorem stream_length_consistency_witness :
    (bbT.extract ntT).consistent
      ∧ (∀ v ∈ loc2T, v.length = (loc2T.headD []).length)
      ∧ List.Forall₂ (fun fs ms => ∀ ch ∈ fs, ch.length = ms.length)
          (Caption.assemble mcT ntT tgtT tmT).src_t (Caption.assemble mcT ntT tgtT tmT).mask_t := by
  have h : (bbT.extract ntT).consistent := by
    simp [BackboneOut.consistent, bbT, ntT]
  have hrect : ∀ v ∈ loc2T, v.length = (loc2T.headD []).length := by decide
  exact ⟨h, hrect, (stream_length_consistency mcT ntT tgtT tmT mlT ntT locT tgtT tmT
    mgT ntT ntT loc2T tgtT tmT h h h h hrect).1⟩

theorem zipWith_replicate_right_of_length {α β γ : Type _} (f : α → β → γ) (c : β)
    (xs : List α) (n : ℕ) (h : xs.length = n) :
    List.zipWith f xs (List.replicate n c) = xs.map fun x => f x c := by
  subst h
  exact zipWith_replicate_right_eq f c xs

theorem zipWith_const_left {α β : Type _} :
    ∀ (xs : List α) (ys : List β), ys.length = xs.length →
      List.zipWith (fun x _ => x) xs ys = xs
  | [], _, _ => by simp
  | x :: xs, [], h => by simp at h
  | x :: xs, y :: ys, h => by
      simp only [List.zipWith_cons_cons, List.cons.injEq, true_and]
      exact zipWith_const_left xs ys (by simpa using h)

/-- Claim C2: for the TargetPlusLocation variant, on every batch the 7-dimensional
location vector of each sample is projected through the dedicated `loc_proj` linear map
and appended as a single length-1 position after the target-image positions; its mask
position is always `false`; each sample's target-stream channel length is the flattened
target-image length plus one; and no context stream is produced. -/
theorem caption_loc_assembly (m : CaptionLoc) (t_samples : NestedTensor)
    (loc_feats : List (List ℚ)) (te : List (List ℕ)) (tem : List (List Bool))
    (hcons : (m.backbone.extract t_samples).consistent)
    (hB : loc_feats.length = (m.backbone.extract t_samples).mask.length)
    (h7 : ∀ v ∈ loc_feats, v.length = 7) :
    (CaptionLoc.assemble m t_samples loc_feats te tem).src_c = none
      ∧ (CaptionLoc.assemble m t_samples loc_feats te tem).mask_c = none
      ∧ (CaptionLoc.assemble m t_samples loc_feats te tem).mask_t
        = (((m.backbone.extract t_samples).mask.map List.flatten).map fun tm => tm ++ [false])
      ∧ (CaptionLoc.assemble m t_samples loc_feats te tem).src_t
        = List.zipWith
            (fun ts v => List.zipWith (fun ch q => ch ++ [q]) ts (m.loc_proj.apply v))
            ((m.backbone.extract t_samples).features.map fun f =>
              (m.input_proj.apply f).map List.flatten)
            loc_feats
      ∧ List.Forall₂ (fun fs tm => ∀ ch ∈ fs, ch.length = tm.length + 1)
          (CaptionLoc.assemble m t_samples loc_feats te tem).src_t
          ((m.backbone.extract t_samples).mask.map List.flatten) := by
  refine ⟨rfl, rfl, ?_, ?_, ?_⟩
  · simp only [CaptionLoc.assemble]
    exact zipWith_replicate_right_of_length _ _ _ _ (by simp [hB.symm])
  · simp only [CaptionLoc.assemble, List.map_map, Function.comp_def,
      List.zipWith_map_right]
  · simp only [CaptionLoc.assemble, List.map_map, Function.comp_def]
    have hR : List.Forall₂ (fun ls v => ∀ lch ∈ ls, lch.length = 1)
        (loc_feats.map fun v => (m.loc_proj.apply v).map fun q => [q]) loc_feats := by
      rw [List.forall₂_map_left_iff, List.forall₂_same]
      intro v _ lch hmem
      obtain ⟨q, _, rfl⟩ := List.mem_map.mp hmem
      rfl
    have hmain := forall₂_zipWith_congr
      (f := fun (ts : List (List ℚ)) (ls : List (List ℚ)) => List.zipWith (· ++ ·) ts ls)
      (g := fun (tm : List Bool) (_ : List ℚ) => tm)
      (P := fun (fs : List (List ℚ)) (tm : List Bool) => ∀ ch ∈ fs, ch.length = tm.length + 1)
      ?_ (image_stream_consistent m.input_proj _ hcons) hR
    · rwa [zipWith_const_left _ _ (by simp [hB.symm])] at hmain
    · intro ts ls tm v hQ hRl ch hch
      obtain ⟨tch, htch, lch, hlch, rfl⟩ := mem_zipWith hch
      rw [List.length_append, hQ tch htch, hRl lch hlch]

/-- Witness for the claim-C2 theorem at a concrete batch. -/
theorem caption_loc_assembly_witness :
    locT.length = (mlT.backbone.extract ntT).mask.length
      ∧ (∀ v ∈ locT, v.length = 7)
      ∧ (CaptionLoc.assemble mlT ntT locT tgtT tmT).src_c = none := by
  have h : (bbT.extract ntT).consistent := by simp [BackboneOut.consistent, bbT, ntT]
  exact ⟨by decide, by decide,
    (caption_loc_assembly mlT ntT locT tgtT tmT h (by decide) (by decide)).1⟩

/-- Claim C9: in every variant the target-image portion of the target-stream mask is the
flattened backbone mask passed through unchanged (the non-empty-mask guarantee applies
only to the context stream): for `Caption` the mask is exactly the flattened backbone
mask — so a fully masked backbone output reaches the transformer entirely `true`, with
no correction — and for the location variants it is an extension of it. -/
theorem target_mask_passthrough
    (mc : Caption) (s : NestedTensor) (te : List (List ℕ)) (tem : List (List Bool))
    (ml : CaptionLoc) (sl : NestedTensor) (ll : List (List ℚ)) (tel : List (List ℕ))
    (teml : List (List Bool))
    (mg : CaptionGlobalLoc) (st sg : NestedTensor) (lg : List (List ℚ)) (teg : List (List ℕ))
    (temg : List (List Bool))
    (hall : ∀ mk ∈ (mc.backbone.extract s).mask, ∀ r ∈ mk, ∀ x ∈ r, x = true)
    (hlB : ll.length = (ml.backbone.extract sl).mask.length)
    (hgB : lg.length = (mg.backbone.extract st).mask.length) :
    (Caption.assemble mc s te tem).mask_t = (mc.backbone.extract s).mask.map List.flatten
      ∧ (∀ row ∈ (Caption.assemble mc s te tem).mask_t, ∀ x ∈ row, x = true)
      ∧ List.Forall₂ (fun row tm => row.take tm.length = tm)
          (CaptionLoc.assemble ml sl ll tel teml).mask_t
          ((ml.backbone.extract sl).mask.map List.flatten)
      ∧ List.Forall₂ (fun row tm => row.take tm.length = tm)
          (CaptionGlobalLoc.assemble mg st sg lg teg temg).mask_t
          ((mg.backbone.extract st).mask.map List.flatten) := by
  refine ⟨rfl, ?_, ?_, ?_⟩
  · intro row hrow x hx
    obtain ⟨mk, hmk, rfl⟩ := List.mem_map.mp hrow
    obtain ⟨r, hr, hxr⟩ := List.mem_flatten.mp hx
    exact hall mk hmk r hr x hxr
  · simp only [CaptionLoc.assemble]
    rw [zipWith_replicate_right_of_length _ _ _ _ (by simp [hlB.symm])]
    rw [List.forall₂_map_left_iff, List.forall₂_same]
    intro tm _
    exact List.take_left tm [false]
  · simp only [CaptionGlobalLoc.assemble]
    rw [zipWith_replicate_right_of_length _ _ _ _ (by simp [hgB.symm])]
    rw [List.forall₂_map_left_iff, List.forall₂_same]
    intro tm _
    exact List.take_left tm _

/-- Witness for the claim-C9 theorem at a concrete fully padded batch. -/
theorem target_mask_passthrough_witness :
    (∀ mk ∈ (mcT.backbone.extract ntPadT).mask, ∀ r ∈ mk, ∀ x ∈ r, x = true)
      ∧ ∀ row ∈ (Caption.assemble mcT ntPadT tgtT tmT).mask_t, ∀ x ∈ row, x = true := by
  refine ⟨by decide, (target_mask_passthrough mcT ntPadT tgtT tmT mlT ntT locT tgtT tmT
    mgT ntT ntT loc2T tgtT tmT (by decide) (by decide) (by decide)).2.1⟩

theorem Linear.apply_length (l : Linear) (x : List ℚ) : (l.apply x).length = l.outDim := by
  simp [Linear.apply, Linear.outDim]

theorem getD_map_lt {α β : Type _} (g : α → β) (d : β) (e : α) :
    ∀ (v : List α) (n : ℕ), n < v.length → (v.map g).getD n d = g (v.getD n e)
  | [], _, h => absurd h (by simp)
  | _ :: _, 0, _ => rfl
  | _ :: xs, n + 1, h => getD_map_lt g d e xs n (by simpa using h)

theorem permute021_column (lp : Linear) (v : List ℚ) (n : ℕ) (hn : n < v.length) :
    ((permute021 lp.outDim (v.map fun q => lp.apply [q])).map fun row => row.getD n 0)
      = lp.apply [v.getD n 0] := by
  unfold permute021
  simp only [List.map_map, Function.comp_def]
  have hx : ∀ j : ℕ,
      ((v.map fun q => (lp.apply [q]).getD j 0).getD n 0) = (lp.apply [v.getD n 0]).getD j 0 :=
    fun j => getD_map_lt _ 0 0 v n hn
  simp only [hx]
  rw [← Linear.apply_length lp [v.getD n 0]]
  exact map_getD_range 0 (lp.apply [v.getD n 0])

/-- Claim C3: for the TargetPlusGlobalPlusLocation variant, on every batch with
location vectors of arbitrary uniform width N, each of the N scalar components is
independently mapped through `loc_proj` into one length-1 position (column n of the
appended block is exactly `loc_proj` applied to scalar n); the target stream is the
flattened target-image features with the N always-unmasked location positions appended
(each channel's length is the flattened target length plus N); and an independent
context stream is produced from the global image batch, so the transformer receives
both a target and a context stream. -/
theorem caption_global_loc_assembly (m : CaptionGlobalLoc) (t_samples g_samples : NestedTensor)
    (loc_feats : List (List ℚ)) (te : List (List ℕ)) (tem : List (List Bool))
    (hcons : (m.backbone.extract t_samples).consistent)
    (hB : loc_feats.length = (m.backbone.extract t_samples).mask.length)
    (hrect : ∀ v ∈ loc_feats, v.length = (loc_feats.headD []).length)
    (hlp : 0 < m.loc_proj.outDim) :
    (CaptionGlobalLoc.assemble m t_samples g_samples loc_feats te tem).src_c
        = some (((m.backbone.extract g_samples).features.map m.input_proj.apply).map
            fun ss => ss.map List.flatten)
      ∧ (CaptionGlobalLoc.assemble m t_samples g_samples loc_feats te tem).mask_c
        = some ((ensure_unmasked_values (m.backbone.extract g_samples).mask).map List.flatten)
      ∧ (CaptionGlobalLoc.assemble m t_samples g_samples loc_feats te tem).mask_t
        = (((m.backbone.extract t_samples).mask.map List.flatten).map fun tm =>
            tm ++ List.replicate (loc_feats.headD []).length false)
      ∧ (CaptionGlobalLoc.assemble m t_samples g_samples loc_feats te tem).src_t
        = List.zipWith
            (fun ts v => List.zipWith (· ++ ·) ts
              (permute021 m.loc_proj.outDim (v.map fun q => m.loc_proj.apply [q])))
            ((m.backbone.extract t_samples).features.map fun f =>
              (m.input_proj.apply f).map List.flatten)
            loc_feats
      ∧ (∀ v ∈ loc_feats, ∀ n, n < v.length →
          ((permute021 m.loc_proj.outDim (v.map fun q => m.loc_proj.apply [q])).map
            fun row => row.getD n 0) = m.loc_proj.apply [v.getD n 0])
      ∧ List.Forall₂ (fun fs tm => ∀ ch ∈ fs,
            ch.length = tm.length + (loc_feats.headD []).length)
          (CaptionGlobalLoc.assemble m t_samples g_samples loc_feats te tem).src_t
          ((m.backbone.extract t_samples).mask.map List.flatten) := by
  refine ⟨rfl, rfl, ?_, ?_, ?_, ?_⟩
  · simp only [CaptionGlobalLoc.assemble, List.map_map, Function.comp_def]
    cases loc_feats with
    | nil =>
        have hmk : (m.backbone.extract t_samples).mask = [] :=
          List.length_eq_zero.mp (by rw [← hB]; rfl)
        simp [hmk]
    | cons v0 rest =>
        obtain ⟨k, hk⟩ : ∃ k, m.loc_proj.outDim = k + 1 :=
          ⟨m.loc_proj.outDim - 1, by omega⟩
        rw [zipWith_replicate_right_of_length _ _ _ _ (by simp [← hB])]
        simp only [List.map_cons, List.headD_cons, hk, permute021_head_length,
          List.length_map]
        simp [List.map_map, Function.comp_def]
  · simp only [CaptionGlobalLoc.assemble, List.map_map, Function.comp_def,
      List.zipWith_map_right]
  · intro v hv n hn
    exact permute021_column m.loc_proj v n hn
  · simp only [CaptionGlobalLoc.assemble, List.map_map, Function.comp_def]
    have hR : List.Forall₂
        (fun ls v => (∀ lch ∈ ls, lch.length = v.length)
          ∧ v.length = (loc_feats.headD []).length)
        (loc_feats.map fun v => permute021 m.loc_proj.outDim
          (v.map fun q => m.loc_proj.apply [q]))
        loc_feats := by
      rw [List.forall₂_map_left_iff, List.forall₂_same]
      intro v hv
      refine ⟨?_, hrect v hv⟩
      intro lch hmem
      have h1 := mem_permute021_length m.loc_proj.outDim (v.map fun q => m.loc_proj.apply [q])
        lch hmem
      simpa using h1
    have hmain := forall₂_zipWith_congr
      (f := fun (ts : List (List ℚ)) (ls : List (List ℚ)) => List.zipWith (· ++ ·) ts ls)
      (g := fun (tm : List Bool) (_ : List ℚ) => tm)
      (P := fun (fs : List (List ℚ)) (tm : List Bool) => ∀ ch ∈ fs,
        ch.length = tm.length + (loc_feats.headD []).length)
      ?_ (image_stream_consistent m.input_proj _ hcons) hR
    · rwa [zipWith_const_left _ _ (by simp [hB.symm])] at hmain
    · intro ts ls tm v hQ hRl ch hch
      obtain ⟨tch, htch, lch, hlch, rfl⟩ := mem_zipWith hch
      obtain ⟨hlen, hN⟩ := hRl
      rw [List.length_append, hQ tch htch, hlen lch hlch, hN]

/-- Witness for the claim-C3 theorem at a concrete batch with width-2 location
vectors. -/
theorem caption_global_loc_assembly_witness :
    loc2T.length = (mgT.backbone.extract ntT).mask.length
      ∧ 0 < mgT.loc_proj.outDim
      ∧ (CaptionGlobalLoc.assemble mgT ntT ntT loc2T tgtT tmT).mask_c
        = some ((ensure_unmasked_values (mgT.backbone.extract ntT).mask).map List.flatten) := by
  have h : (bbT.extract ntT).consistent := by simp [BackboneOut.consistent, bbT, ntT]
  exact ⟨by decide, by decide,
    (caption_global_loc_assembly mgT ntT ntT loc2T tgtT tmT h (by decide) (by decide)
      (by decide)).2.1⟩

theorem ensureSample_false_mem (mk : List (List Bool))
    (hall : ∀ r ∈ mk, ∀ x ∈ r, x = true) (hne : mk.headD [] ≠ []) :
    false ∈ (ensureSample mk).flatten := by
  have hc : (mk.all fun r => r.all (· = true)) = true := by
    simp only [List.all_eq_true, decide_eq_true_eq]
    exact hall
  unfold ensureSample
  rw [if_pos hc]
  rcases mk with _ | ⟨r, rs⟩
  · exact absurd rfl hne
  · simp only [List.headD_cons] at hne
    refine List.mem_flatten.mpr ⟨r.set 0 false, by simp, ?_⟩
    rcases r with _ | ⟨x, xs⟩
    · exact absurd rfl hne
    · simp [List.set]

/-- Claim C4: for the TargetPlusGlobalPlusLocation variant, when the global batch's
feature mask is fully masked (every position padding, with a nonempty mask grid per
sample), the context mask handed to the transformer still contains an unmasked (`false`)
entry in every sample's row — the non-empty-context guarantee is applied proactively,
not treated as an error. -/
theorem context_mask_nonempty (m : CaptionGlobalLoc) (t_samples g_samples : NestedTensor)
    (loc_feats : List (List ℚ)) (te : List (List ℕ)) (tem : List (List Bool))
    (hall : ∀ mk ∈ (m.backbone.extract g_samples).mask, ∀ r ∈ mk, ∀ x ∈ r, x = true)
    (hne : ∀ mk ∈ (m.backbone.extract g_samples).mask, mk.headD [] ≠ []) :
    ∃ mc', (CaptionGlobalLoc.assemble m t_samples g_samples loc_feats te tem).mask_c
        = some mc' ∧ ∀ row ∈ mc', false ∈ row := by
  refine ⟨_, rfl, ?_⟩
  intro row hrow
  obtain ⟨mk', hmk', rfl⟩ := List.mem_map.mp hrow
  obtain ⟨mk, hmk, rfl⟩ := List.mem_map.mp hmk'
  exact ensureSample_false_mem mk (hall mk hmk) (hne mk hmk)

/-- Witness for the claim-C4 theorem at a concrete fully padded global batch. -/
theorem context_mask_nonempty_witness :
    (∀ mk ∈ (mgT.backbone.extract ntPadT).mask, ∀ r ∈ mk, ∀ x ∈ r, x = true)
      ∧ ∃ mc', (CaptionGlobalLoc.assemble mgT ntT ntPadT loc2T tgtT tmT).mask_c = some mc'
          ∧ ∀ row ∈ mc', false ∈ row :=
  ⟨by decide,
    context_mask_nonempty mgT ntT ntPadT loc2T tgtT tmT (by decide) (by decide)⟩

theorem Conv1x1.apply_len (c : Conv1x1) (x : List (List (List ℚ))) :
    (Conv1x1.apply c x).length = min c.weight.length c.bias.length := by
  simp [Conv1x1.apply]

theorem permute021_length (cols : ℕ) (x : List (List ℚ)) :
    (permute021 cols x).length = cols := by
  simp [permute021]

theorem forall₂_take_append : ∀ cs ls : List (List ℚ), cs.length ≤ ls.length →
    List.Forall₂ (fun cch tch => tch.take cch.length = cch) cs (List.zipWith (· ++ ·) cs ls)
  | [], _, _ => .nil
  | _ :: _, [], h => by simp at h
  | c :: cs, l :: ls, h => by
      simp only [List.zipWith_cons_cons]
      exact .cons (List.take_left c l) (forall₂_take_append cs ls (by simpa using h))

/-- Claim C6: in the TargetPlusGlobalPlusLocation variant the target-image and
global-image features are computed by the same backbone and the same learned
input-projection sub-module: feeding any image batch `x` through the context path of
one forward pass yields, channel by channel, exactly the prefix of the target stream
obtained by feeding the same `x` through the target path of another forward pass of the
same model — the two streams live in one learned feature space by construction. -/
theorem shared_projection_feature_space (m : CaptionGlobalLoc) (t g x : NestedTensor)
    (loc loc2 : List (List ℚ)) (te te2 : List (List ℕ)) (tem tem2 : List (List Bool))
    (hcons : (m.backbone.extract x).consistent)
    (hB : loc2.length = (m.backbone.extract x).mask.length)
    (hK : min m.input_proj.weight.length m.input_proj.bias.length ≤ m.loc_proj.outDim) :
    ∃ ctx, (CaptionGlobalLoc.assemble m t x loc te tem).src_c = some ctx
      ∧ List.Forall₂ (List.Forall₂ fun cch tch => tch.take cch.length = cch)
          ctx (CaptionGlobalLoc.assemble m x g loc2 te2 tem2).src_t := by
  refine ⟨_, rfl, ?_⟩
  simp only [CaptionGlobalLoc.assemble, List.map_map, Function.comp_def]
  have hlen : (loc2.map fun v => permute021 m.loc_proj.outDim
      (v.map fun q => m.loc_proj.apply [q])).length
      = ((m.backbone.extract x).features.map fun f =>
          (m.input_proj.apply f).map List.flatten).length := by
    simp [hB, List.Forall₂.length_eq hcons]
  conv_lhs => rw [← zipWith_const_left _ _ hlen]
  refine forall₂_zipWith_congr
    (Q := fun (a c : List (List ℚ)) =>
      a = c ∧ c.length = min m.input_proj.weight.length m.input_proj.bias.length)
    (R := fun (b d : List (List ℚ)) => b = d ∧ d.length = m.loc_proj.outDim)
    ?_ ?_ ?_
  · intro a b c d hq hr
    obtain ⟨rfl, hcl⟩ := hq
    obtain ⟨rfl, hdl⟩ := hr
    exact forall₂_take_append a b (by rw [hcl, hdl]; exact hK)
  · rw [List.forall₂_same]
    intro a ha
    refine ⟨rfl, ?_⟩
    obtain ⟨f, _, rfl⟩ := List.mem_map.mp ha
    simp [Conv1x1.apply_len]
  · rw [List.forall₂_same]
    intro b hb
    refine ⟨rfl, ?_⟩
    obtain ⟨v, _, rfl⟩ := List.mem_map.mp hb
    exact permute021_length _ _

/-- Witness for the claim-C6 theorem at a concrete batch. -/
theorem shared_projection_feature_space_witness :
    (min mgT.input_proj.weight.length mgT.input_proj.bias.length ≤ mgT.loc_proj.outDim)
      ∧ ∃ ctx, (CaptionGlobalLoc.assemble mgT ntT ntT loc2T tgtT tmT).src_c = some ctx
          ∧ List.Forall₂ (List.Forall₂ fun cch tch => tch.take cch.length = cch)
              ctx (CaptionGlobalLoc.assemble mgT ntT ntT loc2T tgtT tmT).src_t := by
  have h : (bbT.extract ntT).consistent := by simp [BackboneOut.consistent, bbT, ntT]
  exact ⟨by decide,
    shared_projection_feature_space mgT ntT ntT ntT loc2T loc2T tgtT tgtT tmT tmT h
      (by decide) (by decide)⟩

theorem mlp_forward_eq (m : MLP) (a b c : Linear) (h3 : m.num_layers = 3)
    (hl : m.layers = [a, b, c]) (x : List ℚ) :
    m.forward x = c.apply (reluVec (b.apply (reluVec (a.apply x)))) := by
  rw [MLP.forward, h3, hl]
  norm_num [MLP.forwardAux]

theorem mlp_out_shape (m : MLP) (a b c : Linear) (h3 : m.num_layers = 3)
    (hl : m.layers = [a, b, c]) (hs : List (List (List ℚ))) (n p v : ℕ)
    (hT : hs.length = n) (hTpos : 0 < n) (hB : ∀ r ∈ hs, r.length = p)
    (hV : c.outDim = v) :
    tensor3Shape (m.apply3 (permute102 hs)) p n v := by
  refine ⟨?_, ?_⟩
  · rcases hs with _ | ⟨r0, rs⟩
    · rw [← hT] at hTpos; simp at hTpos
    · simp [MLP.apply3, permute102, hB r0 (by simp)]
  · intro mrow hmrow
    obtain ⟨prow, hprow, rfl⟩ := List.mem_map.mp hmrow
    refine ⟨?_, ?_⟩
    · obtain ⟨j, _, rfl⟩ := List.mem_map.mp hprow
      simp [hT]
    · intro r hr
      obtain ⟨y, _, rfl⟩ := List.mem_map.mp hr
      rw [mlp_forward_eq m a b c h3 hl y, Linear.apply_length, hV]

/-- Claim C7: the output head of every variant is the fixed 3-layer fully connected
network input_dim → 512 → 512 → vocab_size built by the constructor, with a
rectified-linear nonlinearity after every layer except the last, applied independently
per decoder time step; consequently `forward` returns logits of shape
`[B, T, vocab_size]` (plus attention weights when requested). -/
theorem output_head_spec
    (mk : ℕ → ℕ → Linear) (d v : ℕ)
    (ini : ModuleInit) (bb : Backbone) (tr : ConcatTransformer) (pe : Option (List ℚ))
    (hd vs : ℕ)
    (m3 : MLP) (a b c : Linear) (x : List ℚ)
    (mc : Caption) (s : NestedTensor) (te : List (List ℕ)) (tem : List (List Bool))
    (ra : Bool) (a1 b1 c1 : Linear) (n1 p1 v1 : ℕ)
    (ml : CaptionLoc) (sl : NestedTensor) (ll : List (List ℚ)) (tel : List (List ℕ))
    (teml : List (List Bool)) (ral : Bool) (a2 b2 c2 : Linear) (n2 p2 v2 : ℕ)
    (mg : CaptionGlobalLoc) (st sg : NestedTensor) (lg : List (List ℚ))
    (teg : List (List ℕ)) (temg : List (List Bool)) (rag : Bool)
    (a3 b3 c3 : Linear) (n3 p3 v3 : ℕ)
    (h3 : m3.num_layers = 3) (hl : m3.layers = [a, b, c])
    (hc3 : mc.mlp.num_layers = 3) (hcl : mc.mlp.layers = [a1, b1, c1]) (hcv : c1.outDim = v1)
    (hct : (mc.transformer.apply (Caption.assemble mc s te tem)).1.length = n1)
    (hctp : 0 < n1)
    (hcb : ∀ r ∈ (mc.transformer.apply (Caption.assemble mc s te tem)).1, r.length = p1)
    (hl3 : ml.mlp.num_layers = 3) (hll : ml.mlp.layers = [a2, b2, c2]) (hlv : c2.outDim = v2)
    (hlt : (ml.transformer.apply (CaptionLoc.assemble ml sl ll tel teml)).1.length = n2)
    (hltp : 0 < n2)
    (hlb : ∀ r ∈ (ml.transformer.apply (CaptionLoc.assemble ml sl ll tel teml)).1,
      r.length = p2)
    (hg3 : mg.mlp.num_layers = 3) (hgl : mg.mlp.layers = [a3, b3, c3]) (hgv : c3.outDim = v3)
    (hgt : (mg.transformer.apply
      (CaptionGlobalLoc.assemble mg st sg lg teg temg)).1.length = n3)
    (hgtp : 0 < n3)
    (hgb : ∀ r ∈ (mg.transformer.apply
      (CaptionGlobalLoc.assemble mg st sg lg teg temg)).1, r.length = p3) :
    (MLP.build mk d 512 v 3).num_layers = 3
      ∧ (MLP.build mk d 512 v 3).layers = [mk d 512, mk 512 512, mk 512 v]
      ∧ (Caption.init ini bb tr pe hd vs).mlp = MLP.build ini.mkLinear hd 512 vs 3
      ∧ (CaptionLoc.init ini bb tr pe hd vs).mlp = MLP.build ini.mkLinear hd 512 vs 3
      ∧ (CaptionGlobalLoc.init ini bb tr pe hd vs).mlp = MLP.build ini.mkLinear hd 512 vs 3
      ∧ m3.forward x = c.apply (reluVec (b.apply (reluVec (a.apply x))))
      ∧ tensor3Shape (Caption.forward mc s te tem ra).1 p1 n1 v1
      ∧ tensor3Shape (CaptionLoc.forward ml sl ll tel teml ral).1 p2 n2 v2
      ∧ tensor3Shape (CaptionGlobalLoc.forward mg st sg lg teg temg rag).1 p3 n3 v3 := by
  refine ⟨rfl, rfl, rfl, rfl, rfl, mlp_forward_eq m3 a b c h3 hl x, ?_, ?_, ?_⟩
  · have heq : (Caption.forward mc s te tem ra).1
        = mc.mlp.apply3 (permute102 (mc.transformer.apply (Caption.assemble mc s te tem)).1) := by
      cases ra <;> rfl
    rw [heq]
    exact mlp_out_shape mc.mlp a1 b1 c1 hc3 hcl _ n1 p1 v1 hct hctp hcb hcv
  · have heq : (CaptionLoc.forward ml sl ll tel teml ral).1
        = ml.mlp.apply3 (permute102
            (ml.transformer.apply (CaptionLoc.assemble ml sl ll tel teml)).1) := by
      cases ral <;> rfl
    rw [heq]
    exact mlp_out_shape ml.mlp a2 b2 c2 hl3 hll _ n2 p2 v2 hlt hltp hlb hlv
  · have heq : (CaptionGlobalLoc.forward mg st sg lg teg temg rag).1
        = mg.mlp.apply3 (permute102
            (mg.transformer.apply (CaptionGlobalLoc.assemble mg st sg lg teg temg)).1) := by
      cases rag <;> rfl
    rw [heq]
    exact mlp_out_shape mg.mlp a3 b3 c3 hg3 hgl _ n3 p3 v3 hgt hgtp hgb hgv

/-- Witness for the claim-C7 theorem at a concrete model and batch. -/
theorem output_head_spec_witness :
    mcT.mlp.layers = [iniT.mkLinear 1 512, iniT.mkLinear 512 512, iniT.mkLinear 512 2]
      ∧ (iniT.mkLinear 512 2).outDim = 2
      ∧ (mcT.transformer.apply (Caption.assemble mcT ntT tgtT tmT)).1.length = 1
      ∧ tensor3Shape (Caption.forward mcT ntT tgtT tmT false).1 1 1 2 := by
  refine ⟨rfl, by decide, rfl, ?_⟩
  exact (output_head_spec iniT.mkLinear 1 2 iniT bbT trT none 1 2
    mcT.mlp (iniT.mkLinear 1 512) (iniT.mkLinear 512 512) (iniT.mkLinear 512 2) [0]
    mcT ntT tgtT tmT false (iniT.mkLinear 1 512) (iniT.mkLinear 512 512)
    (iniT.mkLinear 512 2) 1 1 2
    mlT ntT locT tgtT tmT false (iniT.mkLinear 1 512) (iniT.mkLinear 512 512)
    (iniT.mkLinear 512 2) 1 1 2
    mgT ntT ntT loc2T tgtT tmT false (iniT.mkLinear 1 512) (iniT.mkLinear 512 512)
    (iniT.mkLinear 512 2) 1 1 2
    rfl rfl
    rfl rfl (by decide) rfl (by decide) (by decide)
    rfl rfl (by decide) rfl (by decide) (by decide)
    rfl rfl (by decide) rfl (by decide) (by decide)).2.2.2.2.2.2.1

end Retr
